import Mathlib

/-!
Verification of the resume-ranking pipeline.

Python text is embedded as `List Char` (ASCII fragment). Each definition
mirrors one operation of the source files `llm-processor.py`,
`doc-processor.py` and `main-code.py`; the LLM call itself is external, so
the scoring and criteria functions are modelled as functions of the raw
completion text they parse.
-/

/-- Python default whitespace for `str.strip()`: space, tab, LF, CR, VT, FF. -/
def isPySpace (c : Char) : Bool :=
  c == ' ' || c == '\t' || c == '\n' || c == '\r' ||
    c == Char.ofNat 11 || c == Char.ofNat 12

/-- Python `str.strip()`: drop leading and trailing whitespace. -/
def pyStrip (s : List Char) : List Char :=
  ((s.dropWhile isPySpace).reverse.dropWhile isPySpace).reverse

/-- Python `str.split('\n')`: split at every newline, keeping empty pieces. -/
def splitOnNL : List Char → List (List Char)
  | [] => [[]]
  | c :: cs =>
    if c = '\n' then [] :: splitOnNL cs
    else
      match splitOnNL cs with
      | [] => [[c]]
      | l :: ls => (c :: l) :: ls

/-- ASCII decimal digit test (the inputs of interest are ASCII, so this is
Python `str.isdigit` on single characters). -/
def isAsciiDigit (c : Char) : Bool :=
  48 ≤ c.toNat && c.toNat ≤ 57

/-- Python `str.isdigit()` on ASCII text: nonempty and all characters digits. -/
def pyIsDigit (s : List Char) : Bool :=
  !s.isEmpty && s.all isAsciiDigit

/-- Python `int()` on a string of decimal digits. -/
def digitsToNat (s : List Char) : Nat :=
  s.foldl (fun a c => a * 10 + (c.toNat - 48)) 0

/-- Python `str.lower()` on ASCII text. -/
def pyLower (s : List Char) : List Char :=
  s.map fun c => if 65 ≤ c.toNat && c.toNat ≤ 90 then Char.ofNat (c.toNat + 32) else c

/-- First occurrence of the substring `sep`: returns the part before it and
the part after it (Python `str.find` / slicing); `none` when absent. -/
def findSub (sep : List Char) : List Char → Option (List Char × List Char)
  | [] => if sep.isEmpty then some ([], []) else none
  | c :: cs =>
    if sep.isPrefixOf (c :: cs) then some ([], (c :: cs).drop sep.length)
    else
      match findSub sep cs with
      | none => none
      | some (pre, post) => some (c :: pre, post)

/-- Python `sep in s` substring test. -/
def containsSub (sep s : List Char) : Bool :=
  (findSub sep s).isSome

/-- Fuel-driven worker for `pySplit`; `fuel ≥ s.length` makes it total. -/
def splitOnSepFuel (sep : List Char) : Nat → List Char → List (List Char)
  | 0, s => [s]
  | fuel + 1, s =>
    match findSub sep s with
    | none => [s]
    | some (pre, post) => pre :: splitOnSepFuel sep fuel post

/-- Python `str.split(sep)` for a nonempty separator. -/
def pySplit (sep s : List Char) : List (List Char) :=
  splitOnSepFuel sep s.length s

/-- Python `line.split(sep)[1]` (guarded in the source by `sep in line`,
so the default branch is never reached there). -/
def field1 (sep t : List Char) : List Char :=
  ((pySplit sep t)[1]?).getD []

/-! ## Criteria extraction (`extract_criteria_with_llm`, llm-processor.py) -/

/-- The bullet markers of `cleaned_line.startswith(('- ', '• ', '* ', '· '))`. -/
def bulletMarkers : List (List Char) :=
  [['-', ' '], ['•', ' '], ['*', ' '], ['·', ' ']]

/-- The numbering markers `('1. ', '2. ', ..., '10. ')`. -/
def numberMarkers : List (List Char) :=
  ["1. ", "2. ", "3. ", "4. ", "5. ", "6. ", "7. ", "8. ", "9. ", "10. "].map
    String.data

/-- One loop iteration of `extract_criteria_with_llm`: strip the line, remove
a bullet marker (`[2:]` plus strip) or else a numbering marker (`[3:]` plus
strip), then keep it unless empty or starting with `'#'`. -/
def cleanCriterionLine (line : List Char) : Option (List Char) :=
  let c0 := pyStrip line
  let c1 :=
    if bulletMarkers.any (fun m => m.isPrefixOf c0) then pyStrip (c0.drop 2)
    else if numberMarkers.any (fun m => m.isPrefixOf c0) then pyStrip (c0.drop 3)
    else c0
  if !c1.isEmpty && !(['#'].isPrefixOf c1) then some c1 else none

/-- Parsing phase of `extract_criteria_with_llm`: the completion text is
stripped, split on newlines, and each line cleaned; kept lines are the
criteria in encounter order. -/
def extract_criteria_with_llm (respText : List Char) : List (List Char) :=
  (splitOnNL (pyStrip respText)).filterMap cleanCriterionLine

/-- Claim C3 taken literally: the matched marker itself is removed (no
re-trim of the remainder afterwards). Used to compare the claim's wording
with the source behaviour. -/
def specC3CleanLine (line : List Char) : Option (List Char) :=
  let c0 := pyStrip line
  let c1 :=
    match bulletMarkers.find? (fun m => m.isPrefixOf c0) with
    | some m => c0.drop m.length
    | none =>
      match numberMarkers.find? (fun m => m.isPrefixOf c0) with
      | some m => c0.drop m.length
      | none => c0
  if !c1.isEmpty && !(['#'].isPrefixOf c1) then some c1 else none

/-- Claim C3's parse, literally, over the whole response. -/
def specC3Algo (respText : List Char) : List (List Char) :=
  (splitOnNL (pyStrip respText)).filterMap specC3CleanLine

/-- Claim C3 amended: after a marker is removed the remainder is trimmed
again (this is what `cleaned_line[2:].strip()` / `[3:].strip()` do). -/
def specC3AmendedCleanLine (line : List Char) : Option (List Char) :=
  let c0 := pyStrip line
  let c1 :=
    match bulletMarkers.find? (fun m => m.isPrefixOf c0) with
    | some m => pyStrip (c0.drop m.length)
    | none =>
      match numberMarkers.find? (fun m => m.isPrefixOf c0) with
      | some m => pyStrip (c0.drop m.length)
      | none => c0
  if !c1.isEmpty && !(['#'].isPrefixOf c1) then some c1 else none

/-- Claim C3 amended, over the whole response. -/
def specC3AmendedAlgo (respText : List Char) : List (List Char) :=
  (splitOnNL (pyStrip respText)).filterMap specC3AmendedCleanLine

/-! ## Resume scoring (`score_resume_with_llm`, llm-processor.py) -/

/-- The separator `': '`. -/
def colonSep : List Char := [':', ' ']

/-- The separator `'. '`. -/
def dotSep : List Char := ['.', ' ']

/-- The separator `') '`. -/
def parenSep : List Char := [')', ' ']

/-- The bound check `0 <= score <= 5` applied before appending a score
(the lower bound is vacuous on `Nat`, as it is on digit strings). -/
def guard5 (v : Nat) : Option Nat :=
  if v ≤ 5 then some v else none

/-- Branch A of the per-line loop: `line.isdigit() and 0 <= int(line) <= 5`.
`isSome` is exactly the branch condition; when it fails the source falls
through to the `elif` branches. -/
def aScore (t : List Char) : Option Nat :=
  if pyIsDigit t then guard5 (digitsToNat t) else none

/-- Branch B condition: `': ' in line and line.split(': ')[1].strip().isdigit()`. -/
def bCond (t : List Char) : Bool :=
  containsSub colonSep t && pyIsDigit (pyStrip (field1 colonSep t))

/-- Branch B body: `score = int(line.split(': ')[1].strip())`, appended only
when `0 <= score <= 5` (nothing is appended otherwise, and branch C is not
tried, mirroring the `elif`). -/
def bScore (t : List Char) : Option Nat :=
  guard5 (digitsToNat (pyStrip (field1 colonSep t)))

/-- The separator chosen by branch C: `'. ' if '. ' in line else ') '`. -/
def cSepOf (t : List Char) : List Char :=
  if containsSub dotSep t then dotSep else parenSep

/-- Branch C condition:
`('. ' in line or ') ' in line) and line.split(...)[1].strip().isdigit()`. -/
def cCond (t : List Char) : Bool :=
  (containsSub dotSep t || containsSub parenSep t) &&
    pyIsDigit (pyStrip (field1 (cSepOf t) t))

/-- Branch C body: `score = int(line.split(...)[1].strip())` with the
`0 <= score <= 5` check. -/
def cScore (t : List Char) : Option Nat :=
  guard5 (digitsToNat (pyStrip (field1 (cSepOf t) t)))

/-- One iteration of the `for line in score_text.split('\n')` loop: the line
is stripped, then branches A, B, C are tried as an `if`/`elif` chain; `none`
means the iteration appends nothing. (On ASCII digit strings `int()` cannot
raise, and both `split(...)[1]` accesses are guarded, so the
`except (ValueError, IndexError)` arm of the source is unreachable.) -/
def lineScore (raw : List Char) : Option Nat :=
  let t := pyStrip raw
  if (aScore t).isSome then aScore t
  else if bCond t then bScore t
  else if cCond t then cScore t
  else none

/-- The scores collected by the per-line pass, in line order. -/
def rawScores (text : List Char) : List Nat :=
  (splitOnNL text).filterMap lineScore

/-- ASCII word character, for the regex word boundary `\b` (`[a-zA-Z0-9_]`). -/
def isWordChar (c : Char) : Bool :=
  isAsciiDigit c || (97 ≤ c.toNat && c.toNat ≤ 122) ||
    (65 ≤ c.toNat && c.toNat ≤ 90) || c == '_'

/-- Worker for `re.findall(r'\b[0-5]\b', text)`: scans left to right carrying
the previous character; a digit in `[0-5]` matches when its neighbours (if
any) are not word characters. -/
def scanDigits (prev : Option Char) : List Char → List Nat
  | [] => []
  | c :: rest =>
    if 48 ≤ c.toNat && c.toNat ≤ 53 && !(prev.any isWordChar) &&
        !(rest.head?.any isWordChar) then
      (c.toNat - 48) :: scanDigits (some c) rest
    else scanDigits (some c) rest

/-- `re.findall(r'\b[0-5]\b', text)` as numbers, in appearance order. -/
def boundedDigitScan (text : List Char) : List Nat :=
  scanDigits none text

/-- The strategy phase of `score_resume_with_llm`: the per-line pass, replaced
by the whole-text digit scan (capped at `n` scores) whenever the pass yielded
no score or a count different from the number of criteria. -/
def strategyScores (text : List Char) (n : Nat) : List Nat :=
  let scores := rawScores text
  if scores.isEmpty || scores.length != n then (boundedDigitScan text).take n
  else scores

/-- The `while len(scores) < len(criteria): scores.append(0)` padding loop. -/
def padScores (s : List Nat) (n : Nat) : List Nat :=
  s ++ List.replicate (n - s.length) 0

/-- Parsing phase of `score_resume_with_llm`: strip the completion text, run
the strategy phase, pad with zeros up to the number of criteria, then
truncate to it (`scores[:len(criteria)]`). The criteria list enters only
through its length. -/
def score_resume_with_llm (respText : List Char) (criteria : List (List Char)) :
    List Nat :=
  let score_text := pyStrip respText
  (padScores (strategyScores score_text criteria.length) criteria.length).take
    criteria.length

/-- Strategy A alone (claim C2's "line-exact" parse): the scores of the lines
accepted by branch A, ignoring branches B and C. -/
def strategyA_parse (text : List Char) : List Nat :=
  (splitOnNL text).filterMap fun l => aScore (pyStrip l)

/-- Claim C6 taken literally: a line is accepted by Strategy B iff it
contains `': '` and the text after that separator is exactly one of the six
one-character digit strings `"0"`–`"5"`. -/
def specStrategyB (t : List Char) : Option Nat :=
  match findSub colonSep t with
  | none => none
  | some (_, post) =>
    if post ∈ [['0'], ['1'], ['2'], ['3'], ['4'], ['5']] then
      some (digitsToNat post)
    else none

/-- Claim C6 amended: the accepted text is the segment between the first
`': '` and the next `': '` (or the end of the line), trimmed; it must be a
digit string whose value is at most 5, and that value is the score. -/
def specB_amended (t : List Char) : Option Nat :=
  match findSub colonSep t with
  | none => none
  | some (_, post) =>
    let seg := match findSub colonSep post with
      | none => post
      | some (p2, _) => p2
    let g := pyStrip seg
    if pyIsDigit g && digitsToNat g ≤ 5 then some (digitsToNat g) else none

/-! ## Document text extraction (doc-processor.py) -/

/-- A block of a DOCX body: a paragraph, or a table of rows of cell texts.
The interleaving of paragraphs and tables in the body is kept so that the
extraction order can be compared with it. -/
inductive DocxBlock : Type
  | para (text : List Char)
  | table (rows : List (List (List Char)))
deriving DecidableEq

/-- `doc.paragraphs`: the paragraph texts of the body, in document order. -/
def docParagraphs (body : List DocxBlock) : List (List Char) :=
  body.filterMap fun b =>
    match b with
    | .para t => some t
    | .table _ => none

/-- `doc.tables`: the tables of the body, in document order. -/
def docTables (body : List DocxBlock) : List (List (List (List Char))) :=
  body.filterMap fun b =>
    match b with
    | .para _ => none
    | .table rows => some rows

/-- `extract_text_from_docx`: every paragraph text followed by a newline, then
every table cell text (tables in order, rows in order, cells in order), each
followed by a newline, accumulated with `text +=`. -/
def extract_text_from_docx (body : List DocxBlock) : List Char :=
  let t1 := (docParagraphs body).foldl (fun acc p => acc ++ p ++ ['\n']) []
  (docTables body).foldl
    (fun acc tbl =>
      tbl.foldl
        (fun acc row => row.foldl (fun acc cell => acc ++ cell ++ ['\n']) acc)
        acc)
    t1

/-- Concatenation of a list of texts, each followed by a newline. -/
def joinNL (l : List (List Char)) : List Char :=
  (l.map (fun x => x ++ ['\n'])).flatten

/-- `extract_text_from_pdf`: every page text followed by a newline. -/
def extract_text_from_pdf (pages : List (List Char)) : List Char :=
  pages.foldl (fun acc p => acc ++ p ++ ['\n']) []

/-- Decoded content of an uploaded byte buffer: a PDF document, a DOCX
document, or bytes neither decoder accepts. -/
inductive FileBytes : Type
  | pdfDoc (pages : List (List Char))
  | docxDoc (body : List DocxBlock)
  | undecodable
deriving DecidableEq

/-- The error taxonomy of `extract_text_from_file`: the explicit
`ValueError("Unsupported file format: ...")`, and a decoder failure
propagated from PyPDF2 / python-docx. -/
inductive ExtractErr : Type
  | UnsupportedFormat (ext : List Char)
  | CorruptDocument
deriving DecidableEq

/-- `os.path.splitext(p)[1]` (posix): the suffix from the last `'.'` of the
basename, provided some earlier character of the basename is not a `'.'`;
otherwise the empty string. -/
def splitextExt (p : List Char) : List Char :=
  let sepIdx : Int := match (findSub ['/'] p.reverse) with
    | none => -1
    | some (pre, _) => (p.length - 1 - pre.length : Int)
  let dotIdx : Int := match (findSub ['.'] p.reverse) with
    | none => -1
    | some (pre, _) => (p.length - 1 - pre.length : Int)
  if sepIdx < dotIdx then
    if ((p.drop (sepIdx + 1).toNat).take (dotIdx - (sepIdx + 1)).toNat).any
        (fun c => c ≠ '.') then
      p.drop dotIdx.toNat
    else []
  else []

/-- `extract_text_from_file`: dispatch on the lower-cased file-name extension;
`.pdf` and `.docx` go to the respective decoder (whose failure on
undecodable bytes surfaces as `CorruptDocument`), anything else raises
`ValueError`, modelled as `UnsupportedFormat`. -/
def extract_text_from_file (filename : List Char) (content : FileBytes) :
    Except ExtractErr (List Char) :=
  let ext := pyLower (splitextExt filename)
  if ext = ".pdf".data then
    match content with
    | .pdfDoc pages => .ok (extract_text_from_pdf pages)
    | _ => .error .CorruptDocument
  else if ext = ".docx".data then
    match content with
    | .docxDoc body => .ok (extract_text_from_docx body)
    | _ => .error .CorruptDocument
  else .error (.UnsupportedFormat ext)

/-! ## Ranking (`score_resumes`, main-code.py) -/

/-- One row of the results table: candidate name (filename without
extension), score vector, and `Total Score = sum(scores)`. -/
structure CandidateResult : Type where
  name : List Char
  scores : List Nat
  total : Nat
deriving DecidableEq

/-- Building a result row: `total_score = sum(scores)`. -/
def mkCandidateResult (name : List Char) (scores : List Nat) : CandidateResult :=
  ⟨name, scores, scores.sum⟩

/-- Stable insertion keeping existing elements with a greater-or-equal total
in front: the inserted element precedes exactly the strictly smaller ones. -/
def insertDescTotal (a : CandidateResult) :
    List CandidateResult → List CandidateResult
  | [] => [a]
  | b :: bs =>
    if b.total ≤ a.total then a :: b :: bs else b :: insertDescTotal a bs

/-- `sorted(results, key=lambda x: x["Total Score"], reverse=True)`: Python's
`sorted` is the stable descending sort on the key, realised here as a stable
insertion sort (extensionally the same function). -/
def rankCandidates : List CandidateResult → List CandidateResult
  | [] => []
  | a :: as => insertDescTotal a (rankCandidates as)

/-! ## Supporting lemmas -/

theorem guard5_le {v w : Nat} (h : guard5 v = some w) : w ≤ 5 := by
  unfold guard5 at h
  split at h <;> simp_all

theorem lineScore_le {raw : List Char} {v : Nat} (h : lineScore raw = some v) :
    v ≤ 5 := by
  simp only [lineScore] at h
  split at h
  · unfold aScore at h
    split at h
    · exact guard5_le h
    · simp at h
  · split at h
    · exact guard5_le h
    · split at h
      · exact guard5_le h
      · simp at h

theorem scanDigits_le {v : Nat} (s : List Char) :
    ∀ (prev : Option Char), v ∈ scanDigits prev s → v ≤ 5 := by
  induction s with
  | nil => intro prev h; simp [scanDigits] at h
  | cons c rest ih =>
    intro prev h
    simp only [scanDigits] at h
    split at h
    · rcases List.mem_cons.mp h with h1 | h2
      · rename_i hcond
        simp only [Bool.and_eq_true, decide_eq_true_eq] at hcond
        omega
      · exact ih _ h2
    · exact ih _ h

theorem rawScores_le {text : List Char} {v : Nat} (h : v ∈ rawScores text) :
    v ≤ 5 := by
  unfold rawScores at h
  obtain ⟨l, -, hl⟩ := List.mem_filterMap.mp h
  exact lineScore_le hl

theorem strategyScores_le {text : List Char} {n v : Nat}
    (h : v ∈ strategyScores text n) : v ≤ 5 := by
  simp only [strategyScores] at h
  split at h
  · exact scanDigits_le _ _ (List.take_subset _ _ h)
  · exact rawScores_le h

/-- Claim C1: for every criteria list of length N (including N = 0) and every
raw response text, `score_resume_with_llm` returns (it is a total function of
its text inputs; within its guarded parsing no exception can be raised) a
score vector whose length is exactly N and whose every entry is an integer in
[0,5] (scores are naturals, so 0 ≤ v holds by type and is stated for
completeness). -/
theorem score_vector_shape (resp : List Char) (crit : List (List Char)) :
    (score_resume_with_llm resp crit).length = crit.length ∧
    ∀ v ∈ score_resume_with_llm resp crit, 0 ≤ v ∧ v ≤ 5 := by
  constructor
  · simp only [score_resume_with_llm, padScores, List.length_take,
      List.length_append, List.length_replicate]
    omega
  · intro v hv
    refine ⟨Nat.zero_le v, ?_⟩
    have hv' := List.take_subset _ _ hv
    simp only [padScores] at hv'
    rcases List.mem_append.mp hv' with h1 | h2
    · exact strategyScores_le h1
    · have := List.eq_of_mem_replicate h2
      omega

/-- Claim C5: the returned vector is the strategy phase's output padded at
the end with zeros when it has fewer than N entries, and cut to the first N
entries when it has more; stated as one equation covering both conditionals
(and no error is raised: the embedding is a total function). -/
theorem pad_truncate_policy (resp : List Char) (crit : List (List Char)) :
    score_resume_with_llm resp crit =
      (strategyScores (pyStrip resp) crit.length).take crit.length ++
        List.replicate
          (crit.length - (strategyScores (pyStrip resp) crit.length).length)
          0 := by
  simp only [score_resume_with_llm, padScores]
  by_cases h : (strategyScores (pyStrip resp) crit.length).length ≤ crit.length
  · rw [List.take_of_length_le h, List.take_of_length_le]
    simp only [List.length_append, List.length_replicate]
    omega
  · have h0 : crit.length - (strategyScores (pyStrip resp) crit.length).length
        = 0 := by omega
    rw [h0]
    simp

/-- The strategy phase keeps the per-line pass whenever that pass produced
exactly as many scores as there are criteria. -/
theorem strategyScores_of_length_eq {text : List Char} {n : Nat}
    (h : (rawScores text).length = n) : strategyScores text n = rawScores text := by
  rcases eq_or_ne (rawScores text) [] with he | he
  · rw [he] at h
    simp only [strategyScores, he, ← h]
    simp
  · have h1 : (rawScores text).isEmpty = false := by
      simpa [List.isEmpty_iff] using he
    simp [strategyScores, h1, h]

/-- Padding then truncating is the identity on a list of the right length. -/
theorem padTake_of_length_eq {s : List Nat} {n : Nat} (h : s.length = n) :
    (padScores s n).take n = s := by
  simp only [padScores, h, Nat.sub_self, List.replicate_zero, List.append_nil]
  rw [← h, List.take_length]

/-- Claim C2, counterexample: on the response `"x: 4\n3"` with one criterion,
Strategy A's line-exact parse is `[3]` and has exactly N = 1 valid scores, so
the claim requires the result `[3]`; the code's single per-line pass collects
`[4, 3]` (branch B then branch A), the count mismatch triggers the whole-text
digit scan, and the function returns `[4]`. -/
theorem tiered_precedence_cex :
    strategyA_parse (pyStrip "x: 4\n3".data) = [3] ∧
    (["c".data] : List (List Char)).length = 1 ∧
    score_resume_with_llm "x: 4\n3".data ["c".data] = [4] ∧
    score_resume_with_llm "x: 4\n3".data ["c".data] ≠
      strategyA_parse (pyStrip "x: 4\n3".data) := by
  refine ⟨by decide, rfl, by decide, by decide⟩

/-- Claim C2 amended: scoring makes a single pass over the response lines,
each line contributing through the first of branches A, B, C that matches it;
if that combined pass yields exactly N scores it is the result, and in
particular when the combined pass coincides with Strategy A's line-exact
parse of N valid scores, the result is exactly that parse (whatever the
whole-text digit scan would say). -/
theorem score_parse_single_pass (resp : List Char) (crit : List (List Char))
    (h : (rawScores (pyStrip resp)).length = crit.length) :
    score_resume_with_llm resp crit = rawScores (pyStrip resp) ∧
    (rawScores (pyStrip resp) = strategyA_parse (pyStrip resp) →
      score_resume_with_llm resp crit = strategyA_parse (pyStrip resp)) := by
  have h1 : score_resume_with_llm resp crit = rawScores (pyStrip resp) := by
    show (padScores (strategyScores (pyStrip resp) crit.length) crit.length).take
        crit.length = rawScores (pyStrip resp)
    rw [strategyScores_of_length_eq h]
    exact padTake_of_length_eq h
  exact ⟨h1, fun hA => hA ▸ h1⟩

/-- Witness for `score_parse_single_pass` at the response `"3\n2"` and two
criteria. -/
theorem score_parse_single_pass_witness :
    (rawScores (pyStrip "3\n2".data)).length =
      (["a".data, "b".data] : List (List Char)).length ∧
    score_resume_with_llm "3\n2".data ["a".data, "b".data] =
      rawScores (pyStrip "3\n2".data) ∧
    rawScores (pyStrip "3\n2".data) = strategyA_parse (pyStrip "3\n2".data) ∧
    score_resume_with_llm "3\n2".data ["a".data, "b".data] =
      strategyA_parse (pyStrip "3\n2".data) :=
  ⟨by decide,
   (score_parse_single_pass "3\n2".data ["a".data, "b".data] (by decide)).1,
   by decide,
   (score_parse_single_pass "3\n2".data ["a".data, "b".data] (by decide)).2
     (by decide)⟩

/-- Claim C4: when no line of the response matches branches A, B or C, the
strategy phase is the whole-text scan for standalone digit tokens in [0,5]
(digits bounded by word boundaries), in left-to-right appearance order, cut
to at most N scores. -/
theorem fallback_digit_scan (resp : List Char) (crit : List (List Char))
    (h : ((splitOnNL (pyStrip resp)).all fun l => (lineScore l).isNone) = true) :
    strategyScores (pyStrip resp) crit.length =
      (boundedDigitScan (pyStrip resp)).take crit.length := by
  have hr : rawScores (pyStrip resp) = [] := by
    unfold rawScores
    rw [List.filterMap_eq_nil_iff]
    intro a ha
    have := List.all_eq_true.mp h a ha
    exact Option.isNone_iff_eq_none.mp this
  simp [strategyScores, hr]

/-- Witness for `fallback_digit_scan` at the response `"I rate 4 and 0"` and
two criteria. -/
theorem fallback_digit_scan_witness :
    ((splitOnNL (pyStrip "I rate 4 and 0".data)).all
        fun l => (lineScore l).isNone) = true ∧
    strategyScores (pyStrip "I rate 4 and 0".data)
        (["a".data, "b".data] : List (List Char)).length =
      (boundedDigitScan (pyStrip "I rate 4 and 0".data)).take
        (["a".data, "b".data] : List (List Char)).length :=
  ⟨by decide, fallback_digit_scan "I rate 4 and 0".data ["a".data, "b".data]
    (by decide)⟩

/-- Claim C10: the response-parsing steps are deterministic pure functions of
their text inputs. In this embedding both parsers are plain functions with no
state parameter (the source reads no mutable global during parsing), so two
runs on equal inputs agree definitionally; substantively, the score parse
depends on the criteria list only through its length. -/
theorem parsing_deterministic :
    (∀ (resp : List Char) (c₁ c₂ : List (List Char)), c₁.length = c₂.length →
      score_resume_with_llm resp c₁ = score_resume_with_llm resp c₂) ∧
    (∀ (resp : List Char) (crit : List (List Char)),
      score_resume_with_llm resp crit = score_resume_with_llm resp crit) ∧
    (∀ t : List Char, extract_criteria_with_llm t = extract_criteria_with_llm t) := by
  refine ⟨fun resp c₁ c₂ h => ?_, fun _ _ => rfl, fun _ => rfl⟩
  unfold score_resume_with_llm
  rw [h]

/-- Witness for `parsing_deterministic` at the response `"4"` and two
different one-element criteria lists. -/
theorem parsing_deterministic_witness :
    (["x".data] : List (List Char)).length =
      (["y".data] : List (List Char)).length ∧
    score_resume_with_llm "4".data ["x".data] =
      score_resume_with_llm "4".data ["y".data] :=
  ⟨rfl, parsing_deterministic.1 "4".data ["x".data] ["y".data] rfl⟩

/-- Stripping ignores a leading space. -/
theorem pyStrip_cons_space (s : List Char) : pyStrip (' ' :: s) = pyStrip s := by
  have h : isPySpace ' ' = true := rfl
  simp [pyStrip, List.dropWhile_cons, h]

/-- Claim C3, counterexample: on the line `"-  X"` (bullet marker followed by
an extra space) the claim's literal algorithm keeps the criterion `" X"`,
while the source re-trims after removing the marker and keeps `"X"`. -/
theorem criteria_markers_cex :
    extract_criteria_with_llm "-  X".data = ["X".data] ∧
    specC3Algo "-  X".data = [" X".data] ∧
    extract_criteria_with_llm "-  X".data ≠ specC3Algo "-  X".data := by
  refine ⟨by decide, by decide, by decide⟩

/-- Every line cleaned by the source equals the claim-C3-amended cleaning:
the difference with the literal claim is only the extra trim after a marker
is removed (for `'10. '` the source drops three characters and the trim
removes the marker's space). -/
theorem cleanCriterionLine_eq_amended (line : List Char) :
    cleanCriterionLine line = specC3AmendedCleanLine line := by
  unfold cleanCriterionLine specC3AmendedCleanLine
  cases hb : bulletMarkers.find? (fun m => m.isPrefixOf (pyStrip line)) with
  | some m =>
    have hmem := List.mem_of_find?_eq_some hb
    have hpre := List.find?_some hb
    have hany : bulletMarkers.any (fun m => m.isPrefixOf (pyStrip line)) = true :=
      List.any_eq_true.mpr ⟨m, hmem, hpre⟩
    have hlen : m.length = 2 := by
      simp only [bulletMarkers, List.mem_cons, List.not_mem_nil, or_false] at hmem
      rcases hmem with rfl | rfl | rfl | rfl <;> rfl
    simp only [hany, if_true, hb, hlen]
  | none =>
    have hany : bulletMarkers.any (fun m => m.isPrefixOf (pyStrip line)) = false := by
      rw [List.any_eq_false]
      intro m hm
      exact List.find?_eq_none.mp hb m hm
    cases hn : numberMarkers.find? (fun m => m.isPrefixOf (pyStrip line)) with
    | some m =>
      have hmem := List.mem_of_find?_eq_some hn
      have hpre := List.find?_some hn
      have hany2 : numberMarkers.any (fun m => m.isPrefixOf (pyStrip line)) = true :=
        List.any_eq_true.mpr ⟨m, hmem, hpre⟩
      simp only [hany, Bool.false_eq_true, if_false, hany2, if_true, hb, hn]
      simp only [numberMarkers, List.map_cons, List.map_nil, List.mem_cons,
        List.not_mem_nil, or_false] at hmem
      rcases hmem with rfl | rfl | rfl | rfl | rfl | rfl | rfl | rfl | rfl | rfl
      all_goals try rfl
      -- the four-character marker "10. ": the source drops three characters,
      -- leaving the marker's own space, which the trim removes
      obtain ⟨rest, hrest⟩ := List.isPrefixOf_iff_prefix.mp hpre
      rw [← hrest]
      rw [show ((['1', '0', '.', ' '] : List Char) ++ rest).drop 3 = ' ' :: rest
          from rfl,
        show ((['1', '0', '.', ' '] : List Char) ++ rest).drop
            (['1', '0', '.', ' '] : List Char).length = rest from rfl,
        pyStrip_cons_space]
    | none =>
      have hany2 : numberMarkers.any (fun m => m.isPrefixOf (pyStrip line)) = false := by
        rw [List.any_eq_false]
        intro m hm
        exact List.find?_eq_none.mp hn m hm
      simp only [hany, hany2, Bool.false_eq_true, if_false, hb, hn]

/-- Claim C3 amended: criteria parsing works line by line over the stripped
response; each line is trimmed, a leading bullet marker is removed if
present, else a leading numeric-list marker `<digits>. ` for 1-10, and the
remainder is trimmed again; lines that end up empty or starting with `'#'`
are discarded and every other line is one criterion in encounter order, so
the claim's three examples hold. -/
theorem criteria_marker_rules :
    (∀ t : List Char, extract_criteria_with_llm t = specC3AmendedAlgo t) ∧
    extract_criteria_with_llm "- Bachelor\x27s degree required".data =
      ["Bachelor\x27s degree required".data] ∧
    extract_criteria_with_llm "1. 5+ years Python experience".data =
      ["5+ years Python experience".data] ∧
    extract_criteria_with_llm "## Skills".data = [] := by
  refine ⟨fun t => ?_, by decide, by decide, by decide⟩
  unfold extract_criteria_with_llm specC3AmendedAlgo
  rw [funext cleanCriterionLine_eq_amended]

/-- A found occurrence decomposes the string's length. -/
theorem findSub_length {sep : List Char} :
    ∀ {s pre post : List Char}, findSub sep s = some (pre, post) →
      s.length = pre.length + sep.length + post.length := by
  intro s
  induction s with
  | nil =>
    intro pre post h
    simp only [findSub] at h
    split at h
    · rename_i hsep
      obtain ⟨rfl, rfl⟩ := Prod.mk.injEq .. ▸ Option.some.injEq .. ▸ h
      simp_all [List.isEmpty_iff]
    · simp at h
  | cons c cs ih =>
    intro pre post h
    simp only [findSub] at h
    split at h
    · rename_i hpre
      obtain ⟨rfl, rfl⟩ := Prod.mk.injEq .. ▸ Option.some.injEq .. ▸ h
      have hle : sep.length ≤ (c :: cs).length :=
        (List.isPrefixOf_iff_prefix.mp hpre).length_le
      simp only [List.length_drop, List.length_nil]
      omega
    · split at h
      · simp at h
      · rename_i pre' post' hfind
        obtain ⟨rfl, rfl⟩ := Prod.mk.injEq .. ▸ Option.some.injEq .. ▸ h
        have := ih hfind
        simp only [List.length_cons]
        omega

/-- `split(sep)[1]` is the segment between the first occurrence of `sep` and
the next one (or the end of the string). -/
theorem field1_eq_segment {sep t pre post : List Char} (hsep : sep ≠ [])
    (h : findSub sep t = some (pre, post)) :
    field1 sep t = match findSub sep post with
      | none => post
      | some (p2, _) => p2 := by
  have hsl : 1 ≤ sep.length := List.length_pos.mpr hsep
  have hlen := findSub_length h
  have ht : t.length = (t.length - 1) + 1 := by omega
  unfold field1 pySplit
  rw [ht, splitOnSepFuel, h]
  simp only [List.getElem?_cons_succ]
  cases h2 : findSub sep post with
  | none =>
    cases hfuel : t.length - 1 with
    | zero => simp [splitOnSepFuel]
    | succ m => simp [splitOnSepFuel, h2]
  | some pq2 =>
    obtain ⟨p2, q2⟩ := pq2
    have hlen2 := findSub_length h2
    have : t.length - 1 = (t.length - 2) + 1 := by omega
    rw [this, splitOnSepFuel, h2]
    simp

/-- The `elif` branch B of the per-line loop coincides with the amended
claim-C6 description. -/
theorem bBranch_eq_amended (t : List Char) :
    (if bCond t then bScore t else none) = specB_amended t := by
  cases h : findSub colonSep t with
  | none =>
    have hc : containsSub colonSep t = false := by simp [containsSub, h]
    simp [bCond, hc, specB_amended, h]
  | some pq =>
    obtain ⟨pre, post⟩ := pq
    have hc : containsSub colonSep t = true := by simp [containsSub, h]
    have hf := field1_eq_segment (by decide) h
    cases h2 : findSub colonSep post with
    | none =>
      rw [h2] at hf
      simp only [bCond, bScore, hc, Bool.true_and, specB_amended, h, h2, hf]
      cases hd : pyIsDigit (pyStrip post) with
      | false => simp [hd]
      | true =>
        simp only [hd, if_true, guard5, Bool.true_and]
        by_cases h5 : digitsToNat (pyStrip post) ≤ 5 <;> simp [h5]
    | some pq2 =>
      obtain ⟨p2, q2⟩ := pq2
      rw [h2] at hf
      simp only [bCond, bScore, hc, Bool.true_and, specB_amended, h, h2, hf]
      cases hd : pyIsDigit (pyStrip p2) with
      | false => simp [hd]
      | true =>
        simp only [hd, if_true, guard5, Bool.true_and]
        by_cases h5 : digitsToNat (pyStrip p2) ≤ 5 <;> simp [h5]

/-- Claim C6, counterexample: the response line `"Criterion 1: 05"` does not
have "exactly a digit in [0,5]" after the separator, yet branch B accepts it
(`"05".isdigit()` holds and `int("05") = 5 ≤ 5`), and with one criterion the
function returns `[5]`. -/
theorem strategyB_keyed_cex :
    specStrategyB (pyStrip "Criterion 1: 05".data) = none ∧
    bCond (pyStrip "Criterion 1: 05".data) = true ∧
    bScore (pyStrip "Criterion 1: 05".data) = some 5 ∧
    score_resume_with_llm "Criterion 1: 05".data ["c".data] = [5] := by
  refine ⟨by decide, by decide, by decide, by decide⟩

/-- Claim C6 amended: Strategy B accepts exactly those lines containing the
separator `': '` whose segment between the first `': '` and the next `': '`
(or the end of the line), trimmed, is a string of digits denoting a value at
most 5, contributing that value as the line's score; a line on which branch A
failed and branch B's condition holds is scored by branch B. -/
theorem strategyB_keyed_rule :
    (∀ t : List Char, (if bCond t then bScore t else none) = specB_amended t) ∧
    (∀ raw : List Char, (aScore (pyStrip raw)).isSome = false →
      bCond (pyStrip raw) = true → lineScore raw = bScore (pyStrip raw)) := by
  refine ⟨bBranch_eq_amended, fun raw h1 h2 => ?_⟩
  simp [lineScore, h1, h2]

/-- Witness for `strategyB_keyed_rule` at the line `"Criterion 1: 4"`. -/
theorem strategyB_keyed_rule_witness :
    (if bCond (pyStrip "x: 9".data) then bScore (pyStrip "x: 9".data)
      else none) = specB_amended (pyStrip "x: 9".data) ∧
    (aScore (pyStrip "Criterion 1: 4".data)).isSome = false ∧
    bCond (pyStrip "Criterion 1: 4".data) = true ∧
    lineScore "Criterion 1: 4".data = bScore (pyStrip "Criterion 1: 4".data) :=
  ⟨strategyB_keyed_rule.1 (pyStrip "x: 9".data), by decide, by decide,
   strategyB_keyed_rule.2 "Criterion 1: 4".data (by decide) (by decide)⟩

/-- Insertion produces a permutation of consing. -/
theorem insertDescTotal_perm (a : CandidateResult) (l : List CandidateResult) :
    List.Perm (insertDescTotal a l) (a :: l) := by
  induction l with
  | nil => exact List.Perm.refl _
  | cons b bs ih =>
    unfold insertDescTotal
    split
    · exact List.Perm.refl _
    · exact (ih.cons b).trans (List.Perm.swap a b bs)

/-- Insertion preserves descending sortedness on totals. -/
theorem insertDescTotal_sorted (a : CandidateResult) {l : List CandidateResult}
    (h : l.Pairwise fun x y => y.total ≤ x.total) :
    (insertDescTotal a l).Pairwise fun x y => y.total ≤ x.total := by
  induction l with
  | nil => simp [insertDescTotal]
  | cons b bs ih =>
    rw [List.pairwise_cons] at h
    obtain ⟨hb, hbs⟩ := h
    unfold insertDescTotal
    split
    · rename_i hba
      rw [List.pairwise_cons]
      refine ⟨fun x hx => ?_, List.pairwise_cons.mpr ⟨hb, hbs⟩⟩
      rcases List.mem_cons.mp hx with rfl | hx'
      · exact hba
      · exact (hb x hx').trans hba
    · rename_i hba
      rw [List.pairwise_cons]
      refine ⟨fun x hx => ?_, ih hbs⟩
      have hx' : x ∈ a :: bs := (insertDescTotal_perm a bs).mem_iff.mp hx
      rcases List.mem_cons.mp hx' with rfl | hx''
      · omega
      · exact hb x hx''

/-- Insertion does not disturb the subsequence of any fixed total value:
the inserted element only passes elements with a strictly larger total. -/
theorem insertDescTotal_filter (v : Nat) (a : CandidateResult)
    (l : List CandidateResult) :
    (insertDescTotal a l).filter (fun c => c.total == v) =
      (a :: l).filter (fun c => c.total == v) := by
  induction l with
  | nil => rfl
  | cons b bs ih =>
    unfold insertDescTotal
    split
    · rfl
    · rename_i hba
      by_cases hav : a.total = v
      · have hbv : (b.total == v) = false := by
          simp only [beq_eq_false_iff_ne, ne_eq]
          omega
        have hav' : (a.total == v) = true := by simp [hav]
        simp [List.filter_cons, hbv, hav', ih]
      · have hav' : (a.total == v) = false := by simp [hav]
        simp [List.filter_cons, hav', ih]

/-- Claim C7: ranking is a stable descending sort on `total`: the output is a
permutation of the input, is ordered by non-increasing totals, and for every
total value the sub-sequence of results with that total is unchanged, i.e.
ties keep their relative input order; on candidates with totals
[10, 15, 15, 3] the output order is [15 (first), 15 (second), 10, 3]. -/
theorem ranking_stable_desc :
    (∀ l : List CandidateResult,
      List.Perm (rankCandidates l) l ∧
      ((rankCandidates l).Pairwise fun x y => y.total ≤ x.total) ∧
      ∀ v : Nat, (rankCandidates l).filter (fun c => c.total == v) =
        l.filter (fun c => c.total == v)) ∧
    rankCandidates
        [mkCandidateResult "a".data [10], mkCandidateResult "b".data [15],
          mkCandidateResult "c".data [15], mkCandidateResult "d".data [3]] =
      [mkCandidateResult "b".data [15], mkCandidateResult "c".data [15],
        mkCandidateResult "a".data [10], mkCandidateResult "d".data [3]] := by
  refine ⟨fun l => ?_, by decide⟩
  induction l with
  | nil => exact ⟨List.Perm.refl _, List.Pairwise.nil, fun v => rfl⟩
  | cons a as ih =>
    obtain ⟨ihp, ihs, ihf⟩ := ih
    refine ⟨(insertDescTotal_perm a _).trans (ihp.cons a),
      insertDescTotal_sorted a ihs, fun v => ?_⟩
    show (insertDescTotal a (rankCandidates as)).filter _ = _
    rw [insertDescTotal_filter, List.filter_cons, List.filter_cons, ihf]

/-- The `text += part + '\n'` accumulation over a list of texts. -/
theorem foldl_nlAppend (l : List (List Char)) (init : List Char) :
    l.foldl (fun acc p => acc ++ p ++ ['\n']) init = init ++ joinNL l := by
  induction l generalizing init with
  | nil => simp [joinNL]
  | cons p ps ih =>
    rw [List.foldl_cons, ih]
    simp [joinNL, List.append_assoc]

/-- Newline-joining distributes over concatenation. -/
theorem joinNL_append (l₁ l₂ : List (List Char)) :
    joinNL (l₁ ++ l₂) = joinNL l₁ ++ joinNL l₂ := by
  simp [joinNL]

/-- The nested row/cell accumulation of the table loop. -/
theorem foldl_rowsAppend (rows : List (List (List Char))) (init : List Char) :
    rows.foldl
        (fun acc row => row.foldl (fun acc cell => acc ++ cell ++ ['\n']) acc)
        init =
      init ++ joinNL rows.flatten := by
  induction rows generalizing init with
  | nil => simp [joinNL]
  | cons row rows ih =>
    rw [List.foldl_cons, foldl_nlAppend, ih, List.flatten_cons, joinNL_append,
      List.append_assoc]

/-- The outer table accumulation of the table loop. -/
theorem foldl_tablesAppend (tables : List (List (List (List Char))))
    (init : List Char) :
    tables.foldl
        (fun acc tbl =>
          tbl.foldl
            (fun acc row => row.foldl (fun acc cell => acc ++ cell ++ ['\n']) acc)
            acc)
        init =
      init ++ joinNL tables.flatten.flatten := by
  induction tables generalizing init with
  | nil => simp [joinNL]
  | cons tbl tables ih =>
    rw [List.foldl_cons, foldl_rowsAppend, ih, List.flatten_cons,
      List.flatten_append, joinNL_append, List.append_assoc]

/-- Claim C8: DOCX extraction is the concatenation of all paragraph texts in
document order, each followed by a newline, then all table cell texts in
row-major, table-order traversal, each followed by a newline — since
`docParagraphs` and `docTables` are the order-preserving projections of the
interleaved body, all paragraph text precedes all table cell text no matter
where the tables appear, as the concrete interleaved example shows. -/
theorem docx_paragraphs_before_tables :
    (∀ body : List DocxBlock,
      extract_text_from_docx body =
        joinNL (docParagraphs body) ++ joinNL (docTables body).flatten.flatten) ∧
    extract_text_from_docx
        [DocxBlock.para "P1".data, DocxBlock.table [["C1".data]],
          DocxBlock.para "P2".data] =
      "P1\nP2\nC1\n".data := by
  refine ⟨fun body => ?_, by decide⟩
  unfold extract_text_from_docx
  rw [foldl_nlAppend, foldl_tablesAppend]
  simp

/-- Claim C9: `extract_text_from_file` accepts exactly the extensions `.pdf`
and `.docx` of the file name, compared after lower-casing; with any other
extension it returns the `UnsupportedFormat` error carrying that extension
and never returns text. -/
theorem extension_gate (fn : List Char) (c : FileBytes) :
    ((pyLower (splitextExt fn) = ".pdf".data ∨
        pyLower (splitextExt fn) = ".docx".data) ∧
      ∀ e, extract_text_from_file fn c ≠ .error (.UnsupportedFormat e)) ∨
    ((pyLower (splitextExt fn) ≠ ".pdf".data ∧
        pyLower (splitextExt fn) ≠ ".docx".data) ∧
      extract_text_from_file fn c =
        .error (.UnsupportedFormat (pyLower (splitextExt fn))) ∧
      ∀ t, extract_text_from_file fn c ≠ .ok t) := by
  by_cases h1 : pyLower (splitextExt fn) = ".pdf".data
  · left
    refine ⟨Or.inl h1, fun e => ?_⟩
    simp only [extract_text_from_file, h1, if_pos rfl]
    cases c <;> simp
  · by_cases h2 : pyLower (splitextExt fn) = ".docx".data
    · left
      refine ⟨Or.inr h2, fun e => ?_⟩
      simp only [extract_text_from_file, h1, h2, if_neg, if_pos rfl]
      cases c <;> simp
    · right
      refine ⟨⟨h1, h2⟩, ?_, fun t => ?_⟩ <;>
        simp [extract_text_from_file, h1, h2]
